import Mathlib

/-!
Shallow embedding of the Crazy Eights game core (a React/TypeScript
application).  The data model follows `types.ts` and `constants.ts`; the
operations (`initGame`, `checkPlayable`, `playCard`, `drawCard`,
`selectWildSuit`, `surrender`) follow the component in the main source file.
The deferred wild-suit choice that the source schedules with a timeout after
the computer plays an eight is modelled as an explicit `pending` field of the
program state, applied by a separate transition.
-/

set_option maxRecDepth 4096

namespace CrazyEights

/-- Enumeration of the four suits, as in `types.ts`. -/
inductive Suit where
  | HEARTS
  | DIAMONDS
  | CLUBS
  | SPADES
deriving DecidableEq, Repr

/-- Enumeration of the thirteen ranks, as in `types.ts`. -/
inductive Rank where
  | ACE
  | TWO
  | THREE
  | FOUR
  | FIVE
  | SIX
  | SEVEN
  | EIGHT
  | NINE
  | TEN
  | JACK
  | QUEEN
  | KING
deriving DecidableEq, Repr

/-- The string value of a rank in the source enumeration. -/
def rankStr : Rank → String
  | Rank.ACE => "A"
  | Rank.TWO => "2"
  | Rank.THREE => "3"
  | Rank.FOUR => "4"
  | Rank.FIVE => "5"
  | Rank.SIX => "6"
  | Rank.SEVEN => "7"
  | Rank.EIGHT => "8"
  | Rank.NINE => "9"
  | Rank.TEN => "10"
  | Rank.JACK => "J"
  | Rank.QUEEN => "Q"
  | Rank.KING => "K"

/-- The string value of a suit in the source enumeration. -/
def suitStr : Suit → String
  | Suit.HEARTS => "HEARTS"
  | Suit.DIAMONDS => "DIAMONDS"
  | Suit.CLUBS => "CLUBS"
  | Suit.SPADES => "SPADES"

/-- A card: suit, rank and the stable string identifier built in
`createDeck` as rank, dash, suit. -/
structure Card where
  suit : Suit
  rank : Rank
  id : String
deriving DecidableEq, Repr

/-- Builds the card with the identifier used by `createDeck`. -/
def mkCard (su : Suit) (r : Rank) : Card :=
  { suit := su, rank := r, id := rankStr r ++ "-" ++ suitStr su }

/-- The suit enumeration order of `constants.ts`. -/
def SUITS : List Suit := [Suit.HEARTS, Suit.DIAMONDS, Suit.CLUBS, Suit.SPADES]

/-- The rank enumeration order of `constants.ts`. -/
def RANKS : List Rank :=
  [Rank.ACE, Rank.TWO, Rank.THREE, Rank.FOUR, Rank.FIVE, Rank.SIX, Rank.SEVEN,
   Rank.EIGHT, Rank.NINE, Rank.TEN, Rank.JACK, Rank.QUEEN, Rank.KING]

/-- The 52 cards in the order `createDeck` builds them, before shuffling.
The source then applies a Fisher-Yates shuffle, so an initialised game deck
is an arbitrary permutation of this list. -/
def freshDeck : List Card :=
  SUITS.flatMap (fun su => RANKS.map (fun r => mkCard su r))

/-- Turn owner and winner values, the PLAYER and AI string literals of
`types.ts`. -/
inductive Player where
  | PLAYER
  | AI
deriving DecidableEq, Repr

/-- The game phase values of `types.ts`. -/
inductive GameStatus where
  | START
  | PLAYING
  | WILD_SELECTION
  | GAME_OVER
deriving DecidableEq, Repr

/-- The difficulty values of `types.ts`. -/
inductive Difficulty where
  | EASY
  | MEDIUM
  | HARD
deriving DecidableEq, Repr

/-- The game state record of `types.ts`. -/
structure GameState where
  deck : List Card
  playerHand : List Card
  aiHand : List Card
  discardPile : List Card
  currentTurn : Player
  status : GameStatus
  winner : Option Player
  activeSuit : Option Suit
  difficulty : Difficulty
deriving DecidableEq, Repr

/-- The hand of the acting side, matching the isPlayer conditionals of the
source. -/
def handOf (s : GameState) (isPlayer : Bool) : List Card :=
  if isPlayer then s.playerHand else s.aiHand

/-- Translation of `checkPlayable`: an eight is always playable, otherwise
the card must match the active suit or the rank of the top discard.  In the
source an empty discard pile would fault on the rank comparison; reachable
states always carry a non-empty pile, and the none branch here is never
taken by the theorems below. -/
def checkPlayable (s : GameState) (card : Card) : Bool :=
  if card.rank = Rank.EIGHT then true
  else if s.activeSuit = some card.suit then true
  else
    match s.discardPile.getLast? with
    | some topCard => decide (card.rank = topCard.rank)
    | none => false

/-- Translation of the synchronous state update of `playCard`.  The deferred
wild-suit choice the source schedules for the computer is modelled
separately by `aiPendingSuit`. -/
def playCard (s : GameState) (card : Card) (isPlayer : Bool) : GameState :=
  let newHand :=
    if isPlayer then s.playerHand.filter (fun c => c.id != card.id)
    else s.aiHand.filter (fun c => c.id != card.id)
  let newDiscardPile := s.discardPile ++ [card]
  if newHand.length = 0 then
    { s with
      playerHand := if isPlayer then [] else s.playerHand,
      aiHand := if isPlayer then s.aiHand else [],
      discardPile := newDiscardPile,
      status := GameStatus.GAME_OVER,
      winner := some (if isPlayer then Player.PLAYER else Player.AI) }
  else if card.rank = Rank.EIGHT then
    { s with
      playerHand := if isPlayer then newHand else s.playerHand,
      aiHand := if isPlayer then s.aiHand else newHand,
      discardPile := newDiscardPile,
      status := if isPlayer then GameStatus.WILD_SELECTION else GameStatus.PLAYING,
      activeSuit := if isPlayer then s.activeSuit else none }
  else
    { s with
      playerHand := if isPlayer then newHand else s.playerHand,
      aiHand := if isPlayer then s.aiHand else newHand,
      discardPile := newDiscardPile,
      activeSuit := some card.suit,
      currentTurn := if isPlayer then Player.AI else Player.PLAYER }

/-- Number of cards of a suit in a hand, the suitCounts record the computer
builds before choosing a wild suit. -/
def suitCount (hand : List Card) (su : Suit) : Nat :=
  hand.countP (fun c => decide (c.suit = su))

/-- Translation of the computer wild-suit choice in `playCard`: scan SUITS
keeping the first suit whose count strictly exceeds the running maximum,
which starts at minus one. -/
def aiBestSuit (hand : List Card) : Suit :=
  (SUITS.foldl
    (fun (acc : Suit × Int) su =>
      if (suitCount hand su : Int) > acc.2 then (su, (suitCount hand su : Int))
      else acc)
    (Suit.HEARTS, -1)).1

/-- The card the computer turn effect selects on MEDIUM difficulty,
translated from the source effect: the first playable card that is not an
eight, else the first playable card; none when nothing is playable, in
which case the computer draws instead. -/
def mediumChoice (g : GameState) : Option Card :=
  let playableCards := g.aiHand.filter (checkPlayable g)
  match playableCards.find? (fun c => !decide (c.rank = Rank.EIGHT)) with
  | some c => some c
  | none => playableCards.head?

/-- The wild-suit application the source schedules with a timeout when the
computer plays an eight: present exactly in the non-winning eight branch for
the computer, and it carries the best suit of the remaining hand. -/
def aiPendingSuit (s : GameState) (card : Card) (isPlayer : Bool) : Option Suit :=
  let newHand :=
    if isPlayer then s.playerHand.filter (fun c => c.id != card.id)
    else s.aiHand.filter (fun c => c.id != card.id)
  if newHand.length = 0 then none
  else if card.rank = Rank.EIGHT ∧ isPlayer = false then some (aiBestSuit newHand)
  else none

/-- Translation of `drawCard`: an empty deck skips the turn; otherwise the
last card of the deck moves to the acting hand and the turn stays with the
actor exactly when the drawn card is playable against the pre-draw state. -/
def drawCard (s : GameState) (isPlayer : Bool) : GameState :=
  match s.deck.getLast? with
  | none =>
    { s with currentTurn := if isPlayer then Player.AI else Player.PLAYER }
  | some drawnCard =>
    let newDeck := s.deck.dropLast
    if isPlayer then
      { s with
        deck := newDeck,
        playerHand := s.playerHand ++ [drawnCard],
        currentTurn := if checkPlayable s drawnCard then Player.PLAYER else Player.AI }
    else
      { s with
        deck := newDeck,
        aiHand := s.aiHand ++ [drawnCard],
        currentTurn := if checkPlayable s drawnCard then Player.AI else Player.PLAYER }

/-- Translation of `selectWildSuit`: unconditionally records the chosen suit,
returns to PLAYING and hands the turn to the computer. -/
def selectWildSuit (s : GameState) (suit : Suit) : GameState :=
  { s with activeSuit := some suit, status := GameStatus.PLAYING, currentTurn := Player.AI }

/-- Translation of `surrender`: the game ends with the computer as winner. -/
def surrender (s : GameState) : GameState :=
  { s with status := GameStatus.GAME_OVER, winner := some Player.AI }

/-- Removes the first card that is not an eight, keeping the prefix of
eights before it: the while loop plus splice of `initGame`.  Returns none
when every card is an eight, the case where the source would fault. -/
def takeFirstNonEight : List Card → Option (Card × List Card)
  | [] => none
  | c :: rest =>
    if c.rank = Rank.EIGHT then
      match takeFirstNonEight rest with
      | some (d, rest2) => some (d, c :: rest2)
      | none => none
    else some (c, rest)

/-- Translation of `initGame` on an already shuffled deck: deal eight cards
to each hand, flip the first non-eight of the remainder to the discard pile,
and start in PLAYING with the player to move and the discard suit active. -/
def initGame (shuffled : List Card) (difficulty : Difficulty) : Option GameState :=
  let playerHand := shuffled.take 8
  let rest := shuffled.drop 8
  let aiHand := rest.take 8
  let rest2 := rest.drop 8
  match takeFirstNonEight rest2 with
  | none => none
  | some (d, deck) =>
    some
      { deck := deck,
        playerHand := playerHand,
        aiHand := aiHand,
        discardPile := [d],
        currentTurn := Player.PLAYER,
        status := GameStatus.PLAYING,
        winner := none,
        activeSuit := some d.suit,
        difficulty := difficulty }

/-- Program state: the game record plus the wild-suit choice the source has
scheduled with a timeout after the computer played an eight, if any. -/
structure ProgState where
  game : GameState
  pending : Option Suit
deriving DecidableEq, Repr

/-- One transition of the running application.  Guards come from the call
sites in the source: the human can act only on the own turn through controls
the interface enables, the computer acts through its turn effect (playing
some playable card, which on EASY difficulty may be any of them, or drawing
when none is playable), the wild-selection dialog is shown only in the
WILD_SELECTION phase, surrender only while PLAYING, and the deferred
wild-suit application fires once after the computer played an eight. -/
inductive Step : ProgState → ProgState → Prop where
  | playerPlay (ps : ProgState) (card : Card)
      (hst : ps.game.status = GameStatus.PLAYING)
      (htn : ps.game.currentTurn = Player.PLAYER)
      (hmem : card ∈ ps.game.playerHand)
      (hpl : checkPlayable ps.game card = true) :
      Step ps ⟨playCard ps.game card true, ps.pending⟩
  | aiPlay (ps : ProgState) (card : Card)
      (hst : ps.game.status = GameStatus.PLAYING)
      (htn : ps.game.currentTurn = Player.AI)
      (hpd : ps.pending = none)
      (hmem : card ∈ ps.game.aiHand)
      (hpl : checkPlayable ps.game card = true) :
      Step ps ⟨playCard ps.game card false, aiPendingSuit ps.game card false⟩
  | playerDraw (ps : ProgState)
      (hst : ps.game.status = GameStatus.PLAYING)
      (htn : ps.game.currentTurn = Player.PLAYER) :
      Step ps ⟨drawCard ps.game true, ps.pending⟩
  | aiDraw (ps : ProgState)
      (hst : ps.game.status = GameStatus.PLAYING)
      (htn : ps.game.currentTurn = Player.AI)
      (hpd : ps.pending = none)
      (hnone : ps.game.aiHand.filter (checkPlayable ps.game) = []) :
      Step ps ⟨drawCard ps.game false, ps.pending⟩
  | wildSelect (ps : ProgState) (suit : Suit)
      (hst : ps.game.status = GameStatus.WILD_SELECTION) :
      Step ps ⟨selectWildSuit ps.game suit, ps.pending⟩
  | aiWildApply (ps : ProgState) (suit : Suit)
      (hpd : ps.pending = some suit) :
      Step ps ⟨{ ps.game with activeSuit := some suit, currentTurn := Player.PLAYER }, none⟩
  | surrenderStep (ps : ProgState)
      (hst : ps.game.status = GameStatus.PLAYING) :
      Step ps ⟨surrender ps.game, ps.pending⟩

/-- A freshly started game: `initGame` applied to some permutation of the
full deck, with no pending wild choice. -/
def InitState (ps : ProgState) : Prop :=
  ∃ d diff g, d.Perm freshDeck ∧ initGame d diff = some g ∧ ps = ⟨g, none⟩

/-- States reachable from a freshly started game through the transitions. -/
def Reachable (ps : ProgState) : Prop :=
  ∃ ps0, InitState ps0 ∧ Relation.ReflTransGen Step ps0 ps

/-- An empty game state, used only as the default for extracting the result
of a successful initialisation. -/
def blankState : GameState :=
  { deck := [], playerHand := [], aiHand := [], discardPile := [],
    currentTurn := Player.PLAYER, status := GameStatus.START, winner := none,
    activeSuit := none, difficulty := Difficulty.MEDIUM }

/-- The game obtained by dealing the unshuffled full deck, a concrete
initial state (the identity permutation is one possible shuffle). -/
def demoInit : GameState := (initGame freshDeck Difficulty.MEDIUM).getD blankState

/-- A small mid-game state used to instantiate the theorems: the player
holds the eight of spades and the five of hearts, the top discard is the
five of clubs and clubs is the active suit. -/
def wBase : GameState :=
  { deck := [mkCard Suit.CLUBS Rank.KING],
    playerHand := [mkCard Suit.SPADES Rank.EIGHT, mkCard Suit.HEARTS Rank.FIVE],
    aiHand := [mkCard Suit.DIAMONDS Rank.NINE, mkCard Suit.DIAMONDS Rank.TWO],
    discardPile := [mkCard Suit.CLUBS Rank.FIVE],
    currentTurn := Player.PLAYER,
    status := GameStatus.PLAYING,
    winner := none,
    activeSuit := some Suit.CLUBS,
    difficulty := Difficulty.MEDIUM }

/-- Position of a suit in the SUITS enumeration order. -/
def suitIdx : Suit → Nat
  | Suit.HEARTS => 0
  | Suit.DIAMONDS => 1
  | Suit.CLUBS => 2
  | Suit.SPADES => 3

/-- The multiset of every card in play: deck, both hands and discard pile. -/
def allCards (g : GameState) : Multiset Card :=
  (g.deck : Multiset Card) + (g.playerHand : Multiset Card) +
    (g.aiHand : Multiset Card) + (g.discardPile : Multiset Card)

/-- Conservation invariant: the cards in play are exactly the 52 cards of
the full deck. -/
def CardsInv (ps : ProgState) : Prop :=
  allCards ps.game = (freshDeck : Multiset Card)

/-- Wild-suit invariant: after the game has started the active suit is set,
except while the deferred choice of the computer is still pending. -/
def WildInv (ps : ProgState) : Prop :=
  ps.game.status ≠ GameStatus.START →
    (ps.game.activeSuit ≠ none ∨ ps.pending ≠ none)

/-- One possible shuffle of the full deck: the player is dealt the ace
through eight of hearts, the computer the eight of clubs and seven
diamonds, and the first discard is the four of diamonds. -/
def cexDeck : List Card :=
  [mkCard Suit.HEARTS Rank.ACE, mkCard Suit.HEARTS Rank.TWO,
   mkCard Suit.HEARTS Rank.THREE, mkCard Suit.HEARTS Rank.FOUR,
   mkCard Suit.HEARTS Rank.FIVE, mkCard Suit.HEARTS Rank.SIX,
   mkCard Suit.HEARTS Rank.SEVEN, mkCard Suit.HEARTS Rank.EIGHT,
   mkCard Suit.CLUBS Rank.EIGHT, mkCard Suit.DIAMONDS Rank.ACE,
   mkCard Suit.DIAMONDS Rank.TWO, mkCard Suit.DIAMONDS Rank.THREE,
   mkCard Suit.DIAMONDS Rank.FIVE, mkCard Suit.DIAMONDS Rank.SIX,
   mkCard Suit.DIAMONDS Rank.SEVEN, mkCard Suit.DIAMONDS Rank.NINE,
   mkCard Suit.DIAMONDS Rank.FOUR,
   mkCard Suit.HEARTS Rank.NINE, mkCard Suit.HEARTS Rank.TEN,
   mkCard Suit.HEARTS Rank.JACK, mkCard Suit.HEARTS Rank.QUEEN,
   mkCard Suit.HEARTS Rank.KING,
   mkCard Suit.DIAMONDS Rank.EIGHT, mkCard Suit.DIAMONDS Rank.TEN,
   mkCard Suit.DIAMONDS Rank.JACK, mkCard Suit.DIAMONDS Rank.QUEEN,
   mkCard Suit.DIAMONDS Rank.KING,
   mkCard Suit.CLUBS Rank.ACE, mkCard Suit.CLUBS Rank.TWO,
   mkCard Suit.CLUBS Rank.THREE, mkCard Suit.CLUBS Rank.FOUR,
   mkCard Suit.CLUBS Rank.FIVE, mkCard Suit.CLUBS Rank.SIX,
   mkCard Suit.CLUBS Rank.SEVEN, mkCard Suit.CLUBS Rank.NINE,
   mkCard Suit.CLUBS Rank.TEN, mkCard Suit.CLUBS Rank.JACK,
   mkCard Suit.CLUBS Rank.QUEEN, mkCard Suit.CLUBS Rank.KING,
   mkCard Suit.SPADES Rank.ACE, mkCard Suit.SPADES Rank.TWO,
   mkCard Suit.SPADES Rank.THREE, mkCard Suit.SPADES Rank.FOUR,
   mkCard Suit.SPADES Rank.FIVE, mkCard Suit.SPADES Rank.SIX,
   mkCard Suit.SPADES Rank.SEVEN, mkCard Suit.SPADES Rank.EIGHT,
   mkCard Suit.SPADES Rank.NINE, mkCard Suit.SPADES Rank.TEN,
   mkCard Suit.SPADES Rank.JACK, mkCard Suit.SPADES Rank.QUEEN,
   mkCard Suit.SPADES Rank.KING]

/-- The game dealt from that shuffle. -/
def cexG0 : GameState := (initGame cexDeck Difficulty.MEDIUM).getD blankState

/-- The player answers the four of diamonds discard with the four of
hearts, a rank match; the active suit becomes HEARTS and the turn passes to
the computer. -/
def cexG1 : GameState := playCard cexG0 (mkCard Suit.HEARTS Rank.FOUR) true

/-- The computer plays its eight of clubs.  At this state the eight is the
only playable card of the computer: its diamonds match neither the active
suit HEARTS nor the rank of the top card.  With a single playable card the
selection of every difficulty tier in the source is that card, so this is
the move the program makes. -/
def cexG2 : GameState := playCard cexG1 (mkCard Suit.CLUBS Rank.EIGHT) false

/-- The wild-suit choice the computer has scheduled but not yet applied. -/
def cexPending : Option Suit :=
  aiPendingSuit cexG1 (mkCard Suit.CLUBS Rank.EIGHT) false

/-- Invariants that hold initially and are preserved by every step hold at
every reachable state. -/
theorem reachable_invariant (P : ProgState → Prop)
    (hinit : ∀ ps, InitState ps → P ps)
    (hstep : ∀ a b, Step a b → P a → P b) :
    ∀ ps, Reachable ps → P ps := by
  rintro ps ⟨ps0, h0, hrtg⟩
  induction hrtg with
  | refl => exact hinit ps0 h0
  | tail _ hs ih => exact hstep _ _ hs ih

/-- C2: for every card, top card and active suit, checkPlayable accepts a
card exactly when it is an eight, or its suit equals the active suit, or its
rank equals the rank of the top card. -/
theorem checkPlayable_characterisation (s : GameState) (card top : Card) (a : Suit)
    (htop : s.discardPile.getLast? = some top)
    (hsuit : s.activeSuit = some a) :
    checkPlayable s card = true ↔
      (card.rank = Rank.EIGHT ∨ card.suit = a ∨ card.rank = top.rank) := by
  unfold checkPlayable
  rw [htop, hsuit]
  split_ifs with h8 hsu
  · simp [h8]
  · have hca : card.suit = a := by
      have := hsu
      rw [Option.some.injEq] at this
      exact this.symm
    simp [hca]
  · have hca : card.suit ≠ a := fun h => hsu (by rw [h])
    simp [h8, hca, decide_eq_true_iff]

/-- Witness for C2 at the five of hearts on a five of clubs with clubs
active: playable by rank match. -/
theorem checkPlayable_characterisation_witness :
    checkPlayable wBase (mkCard Suit.HEARTS Rank.FIVE) = true := by
  have h := checkPlayable_characterisation wBase (mkCard Suit.HEARTS Rank.FIVE)
    (mkCard Suit.CLUBS Rank.FIVE) Suit.CLUBS (by rfl) (by rfl)
  exact h.mpr (by decide)

/-- C3: playing a legal non-eight card from a hand that still holds another
card sets the active suit to the suit of the card, hands the turn to the
other actor, and stays in PLAYING. -/
theorem playCard_ordinary (s : GameState) (card : Card) (isPlayer : Bool)
    (hstatus : s.status = GameStatus.PLAYING)
    (hmem : card ∈ handOf s isPlayer)
    (hpl : checkPlayable s card = true)
    (h8 : card.rank ≠ Rank.EIGHT)
    (hmore : ∃ c ∈ handOf s isPlayer, c.id ≠ card.id) :
    (playCard s card isPlayer).activeSuit = some card.suit ∧
    (playCard s card isPlayer).currentTurn =
      (if isPlayer then Player.AI else Player.PLAYER) ∧
    (playCard s card isPlayer).status = GameStatus.PLAYING := by
  obtain ⟨c, hc, hne⟩ := hmore
  cases isPlayer with
  | true =>
    simp only [handOf, if_true] at hc
    have hfil : c ∈ s.playerHand.filter (fun x => x.id != card.id) := by
      simp [List.mem_filter, hc, hne]
    have hlen : (s.playerHand.filter (fun x => x.id != card.id)).length ≠ 0 :=
      fun h => List.ne_nil_of_mem hfil (List.length_eq_zero.mp h)
    simp [playCard, hlen, h8, hstatus]
  | false =>
    simp only [handOf, if_false, Bool.false_eq_true] at hc
    have hfil : c ∈ s.aiHand.filter (fun x => x.id != card.id) := by
      simp [List.mem_filter, hc, hne]
    have hlen : (s.aiHand.filter (fun x => x.id != card.id)).length ≠ 0 :=
      fun h => List.ne_nil_of_mem hfil (List.length_eq_zero.mp h)
    simp [playCard, hlen, h8, hstatus]

/-- Witness for C3: the player plays the five of hearts while also holding
the eight of spades. -/
theorem playCard_ordinary_witness :
    (playCard wBase (mkCard Suit.HEARTS Rank.FIVE) true).activeSuit =
      some Suit.HEARTS ∧
    (playCard wBase (mkCard Suit.HEARTS Rank.FIVE) true).currentTurn = Player.AI ∧
    (playCard wBase (mkCard Suit.HEARTS Rank.FIVE) true).status =
      GameStatus.PLAYING := by
  have h := playCard_ordinary wBase (mkCard Suit.HEARTS Rank.FIVE) true
    (by rfl) (by decide) (by decide) (by decide)
    ⟨mkCard Suit.SPADES Rank.EIGHT, by decide, by decide⟩
  simpa using h

/-- C4: playing the only card of the hand ends the game: GAME_OVER, winner
is the actor, the card moved from the hand to the discard pile, and turn and
active suit are untouched. -/
theorem playCard_winning (s : GameState) (card : Card) (isPlayer : Bool)
    (hhand : handOf s isPlayer = [card]) :
    (playCard s card isPlayer).status = GameStatus.GAME_OVER ∧
    (playCard s card isPlayer).winner =
      some (if isPlayer then Player.PLAYER else Player.AI) ∧
    handOf (playCard s card isPlayer) isPlayer = [] ∧
    (playCard s card isPlayer).discardPile = s.discardPile ++ [card] ∧
    (playCard s card isPlayer).currentTurn = s.currentTurn ∧
    (playCard s card isPlayer).activeSuit = s.activeSuit := by
  cases isPlayer with
  | true =>
    simp only [handOf, if_true] at hhand
    simp [playCard, handOf, hhand]
  | false =>
    simp only [handOf, if_false, Bool.false_eq_true] at hhand
    simp [playCard, handOf, hhand]

/-- Witness for C4: the computer plays the last card of a one-card hand. -/
theorem playCard_winning_witness :
    (playCard { wBase with aiHand := [mkCard Suit.DIAMONDS Rank.NINE] }
        (mkCard Suit.DIAMONDS Rank.NINE) false).status = GameStatus.GAME_OVER ∧
    (playCard { wBase with aiHand := [mkCard Suit.DIAMONDS Rank.NINE] }
        (mkCard Suit.DIAMONDS Rank.NINE) false).winner = some Player.AI := by
  have h := playCard_winning { wBase with aiHand := [mkCard Suit.DIAMONDS Rank.NINE] }
    (mkCard Suit.DIAMONDS Rank.NINE) false (by rfl)
  exact ⟨h.1, by simpa using h.2.1⟩

/-- C5: drawing from an empty deck changes no card collection and hands the
turn to the other actor; it is an ordinary defined result, not an error. -/
theorem drawCard_emptyDeck (s : GameState) (isPlayer : Bool)
    (hdeck : s.deck = []) :
    (drawCard s isPlayer).deck = s.deck ∧
    (drawCard s isPlayer).playerHand = s.playerHand ∧
    (drawCard s isPlayer).aiHand = s.aiHand ∧
    (drawCard s isPlayer).discardPile = s.discardPile ∧
    (drawCard s isPlayer).currentTurn =
      (if isPlayer then Player.AI else Player.PLAYER) := by
  simp [drawCard, hdeck]

/-- Witness for C5: the player draws on an empty deck and the turn skips to
the computer. -/
theorem drawCard_emptyDeck_witness :
    (drawCard { wBase with deck := [] } true).playerHand = wBase.playerHand ∧
    (drawCard { wBase with deck := [] } true).currentTurn = Player.AI := by
  have h := drawCard_emptyDeck { wBase with deck := [] } true (by rfl)
  exact ⟨h.2.1, by simpa using h.2.2.2.2⟩

/-- C6: drawing from a non-empty deck removes the last card of the deck
sequence, appends it to the hand of the actor, and the turn stays with the
actor exactly when the drawn card is playable, otherwise flips. -/
theorem drawCard_nonempty (s : GameState) (isPlayer : Bool) (c : Card)
    (hlast : s.deck.getLast? = some c) :
    (drawCard s isPlayer).deck = s.deck.dropLast ∧
    handOf (drawCard s isPlayer) isPlayer = handOf s isPlayer ++ [c] ∧
    handOf (drawCard s isPlayer) (!isPlayer) = handOf s (!isPlayer) ∧
    (drawCard s isPlayer).discardPile = s.discardPile ∧
    (drawCard s isPlayer).currentTurn =
      (if checkPlayable s c = true
       then (if isPlayer then Player.PLAYER else Player.AI)
       else (if isPlayer then Player.AI else Player.PLAYER)) := by
  cases hc : checkPlayable s c <;>
    cases isPlayer <;> simp [drawCard, hlast, handOf, hc]

/-- Witness for C6: the player draws the king of clubs, which is playable
on the active suit clubs, so the turn stays with the player. -/
theorem drawCard_nonempty_witness :
    (drawCard wBase true).deck = [] ∧
    (drawCard wBase true).playerHand =
      wBase.playerHand ++ [mkCard Suit.CLUBS Rank.KING] ∧
    (drawCard wBase true).currentTurn = Player.PLAYER := by
  have h := drawCard_nonempty wBase true (mkCard Suit.CLUBS Rank.KING) (by rfl)
  refine ⟨by simpa using h.1, by simpa [handOf] using h.2.1, ?_⟩
  have := h.2.2.2.2
  simpa [show checkPlayable wBase (mkCard Suit.CLUBS Rank.KING) = true by decide]
    using this

/-- C7 counterexample: playCard called with a card that is neither in the
player hand nor playable does not leave the state unchanged; the foreign
card is still appended to the discard pile. -/
theorem playCard_illegal_counterexample :
    (mkCard Suit.SPADES Rank.ACE) ∉ demoInit.playerHand ∧
    checkPlayable demoInit (mkCard Suit.SPADES Rank.ACE) = false ∧
    playCard demoInit (mkCard Suit.SPADES Rank.ACE) true ≠ demoInit ∧
    (playCard demoInit (mkCard Suit.SPADES Rank.ACE) true).discardPile =
      demoInit.discardPile ++ [mkCard Suit.SPADES Rank.ACE] := by decide

/-- C7 amended: playCard performs no membership or playability validation;
called with a card the actor does not hold, it leaves both hands unchanged
and still appends the card to the discard pile.  Legality checking is done
by the callers. -/
theorem playCard_no_validation (s : GameState) (card : Card) (isPlayer : Bool)
    (hnotin : ∀ c ∈ handOf s isPlayer, c.id ≠ card.id)
    (hne : handOf s isPlayer ≠ []) :
    handOf (playCard s card isPlayer) isPlayer = handOf s isPlayer ∧
    handOf (playCard s card isPlayer) (!isPlayer) = handOf s (!isPlayer) ∧
    (playCard s card isPlayer).discardPile = s.discardPile ++ [card] := by
  cases isPlayer with
  | true =>
    simp only [handOf, if_true] at hnotin hne
    have hfil : s.playerHand.filter (fun x => x.id != card.id) = s.playerHand :=
      List.filter_eq_self.mpr (fun a ha => by simpa using hnotin a ha)
    have hlen : s.playerHand.length ≠ 0 := by
      simpa [List.length_eq_zero] using hne
    by_cases h8 : card.rank = Rank.EIGHT <;>
      simp [playCard, handOf, hfil, hlen, h8]
  | false =>
    simp only [handOf, if_false, Bool.false_eq_true] at hnotin hne
    have hfil : s.aiHand.filter (fun x => x.id != card.id) = s.aiHand :=
      List.filter_eq_self.mpr (fun a ha => by simpa using hnotin a ha)
    have hlen : s.aiHand.length ≠ 0 := by
      simpa [List.length_eq_zero] using hne
    by_cases h8 : card.rank = Rank.EIGHT <;>
      simp [playCard, handOf, hfil, hlen, h8]

/-- Witness for the amended C7: playing the foreign ace of spades leaves the
player hand unchanged and grows the discard pile. -/
theorem playCard_no_validation_witness :
    handOf (playCard wBase (mkCard Suit.SPADES Rank.ACE) true) true =
      handOf wBase true ∧
    (playCard wBase (mkCard Suit.SPADES Rank.ACE) true).discardPile =
      wBase.discardPile ++ [mkCard Suit.SPADES Rank.ACE] := by
  have h := playCard_no_validation wBase (mkCard Suit.SPADES Rank.ACE) true
    (by decide) (by decide)
  exact ⟨h.1, h.2.2⟩

/-- C8 counterexample: selectWildSuit invoked on a finished game is not
rejected; it mutates the state and even puts the phase back to PLAYING. -/
theorem selectWildSuit_counterexample :
    (surrender demoInit).status = GameStatus.GAME_OVER ∧
    (surrender demoInit).status ≠ GameStatus.WILD_SELECTION ∧
    selectWildSuit (surrender demoInit) Suit.HEARTS ≠ surrender demoInit ∧
    (selectWildSuit (surrender demoInit) Suit.HEARTS).status =
      GameStatus.PLAYING := by decide

/-- C8 amended: selectWildSuit performs no phase check; in every phase it
unconditionally records the chosen suit as active, sets the phase to
PLAYING and hands the turn to the computer.  The interface invokes it only
from the wild-selection dialog, which is shown only in WILD_SELECTION. -/
theorem selectWildSuit_unconditional (s : GameState) (suit : Suit) :
    selectWildSuit s suit =
      { s with activeSuit := some suit, status := GameStatus.PLAYING,
               currentTurn := Player.AI } := rfl

/-- C10: the computer wild-suit choice picks a suit of maximal count in the
remaining hand, ties broken by the enumeration order HEARTS, DIAMONDS,
CLUBS, SPADES; on the remaining hand two of hearts, two of diamonds, nine
of diamonds it picks DIAMONDS. -/
theorem aiBestSuit_spec :
    (∀ hand su, suitCount hand su ≤ suitCount hand (aiBestSuit hand) ∧
      (suitCount hand su = suitCount hand (aiBestSuit hand) →
        suitIdx (aiBestSuit hand) ≤ suitIdx su)) ∧
    aiBestSuit [mkCard Suit.HEARTS Rank.TWO, mkCard Suit.DIAMONDS Rank.TWO,
      mkCard Suit.DIAMONDS Rank.NINE] = Suit.DIAMONDS := by
  refine ⟨fun hand su => ?_, by decide⟩
  unfold aiBestSuit SUITS
  simp only [List.foldl]
  cases su <;> split_ifs <;> simp_all [suitIdx, suitCount] <;> omega

/-- Witness for C10: on a one-card heart hand the choice is HEARTS, which
attains the count of HEARTS, and the tie-break bound holds there. -/
theorem aiBestSuit_spec_witness :
    suitCount [mkCard Suit.HEARTS Rank.TWO] Suit.HEARTS ≤
      suitCount [mkCard Suit.HEARTS Rank.TWO]
        (aiBestSuit [mkCard Suit.HEARTS Rank.TWO]) ∧
    suitIdx (aiBestSuit [mkCard Suit.HEARTS Rank.TWO]) ≤ suitIdx Suit.HEARTS := by
  have h := aiBestSuit_spec.1 [mkCard Suit.HEARTS Rank.TWO] Suit.HEARTS
  exact ⟨h.1, h.2 (by decide)⟩

theorem coe_append (l₁ l₂ : List Card) :
    ((l₁ ++ l₂ : List Card) : Multiset Card) = (l₁ : Multiset Card) + l₂ :=
  (Multiset.coe_add l₁ l₂).symm

/-- Removing the first non-eight is a permutation-preserving extraction. -/
theorem takeFirstNonEight_perm (l : List Card) :
    ∀ c l', takeFirstNonEight l = some (c, l') → l.Perm (c :: l') := by
  induction l with
  | nil => intro c l' h; simp [takeFirstNonEight] at h
  | cons d rest ih =>
    intro c l' h
    simp only [takeFirstNonEight] at h
    by_cases h8 : d.rank = Rank.EIGHT
    · rw [if_pos h8] at h
      cases hrec : takeFirstNonEight rest with
      | none => rw [hrec] at h; cases h
      | some p =>
        obtain ⟨e, rest2⟩ := p
        rw [hrec] at h
        simp only [Option.some.injEq, Prod.mk.injEq] at h
        obtain ⟨he, hl'⟩ := h
        rw [← he, ← hl']
        exact ((ih e rest2 hrec).cons d).trans (List.Perm.swap e d rest2)
    · rw [if_neg h8] at h
      simp only [Option.some.injEq, Prod.mk.injEq] at h
      obtain ⟨he, hl'⟩ := h
      rw [← he, ← hl']

/-- Filtering out the identifier of a member card with no duplicate
identifiers extracts exactly that card. -/
theorem mem_perm_cons_filter (l : List Card) (card : Card)
    (hnd : (l.map (fun c => c.id)).Nodup) (hmem : card ∈ l) :
    l.Perm (card :: l.filter (fun c => c.id != card.id)) := by
  induction l with
  | nil => cases hmem
  | cons d rest ih =>
    simp only [List.map_cons, List.nodup_cons] at hnd
    obtain ⟨hdid, hndrest⟩ := hnd
    rcases List.mem_cons.mp hmem with hcd | hcrest
    · subst hcd
      have hfr : rest.filter (fun c => c.id != card.id) = rest := by
        apply List.filter_eq_self.mpr
        intro a ha
        simp only [bne_iff_ne, ne_eq]
        intro hid
        exact hdid (hid ▸ List.mem_map_of_mem (fun c => c.id) ha)
      simp [List.filter_cons, hfr]
    · have hdc : d.id ≠ card.id := by
        intro hid
        exact hdid (hid ▸ List.mem_map_of_mem (fun c => c.id) hcrest)
      have hih := ih hndrest hcrest
      have hfc : (d :: rest).filter (fun c => c.id != card.id) =
          d :: rest.filter (fun c => c.id != card.id) := by
        simp [List.filter_cons, hdc]
      rw [hfc]
      exact (hih.cons d).trans (List.Perm.swap card d _)

/-- The identifiers of the full deck are pairwise distinct. -/
theorem freshDeck_ids_nodup : (freshDeck.map (fun c => c.id)).Nodup := by decide

/-- In a state satisfying the conservation invariant, each hand has
pairwise distinct card identifiers. -/
theorem hand_ids_nodup (g : GameState)
    (hinv : allCards g = (freshDeck : Multiset Card)) (b : Bool) :
    ((handOf g b).map (fun c => c.id)).Nodup := by
  have hle : ((handOf g b : List Card) : Multiset Card) ≤ allCards g := by
    cases b with
    | true =>
      refine Multiset.le_iff_exists_add.mpr
        ⟨(g.deck : Multiset Card) + (g.aiHand : Multiset Card) +
          (g.discardPile : Multiset Card), ?_⟩
      simp only [allCards, handOf, if_true]
      abel
    | false =>
      refine Multiset.le_iff_exists_add.mpr
        ⟨(g.deck : Multiset Card) + (g.playerHand : Multiset Card) +
          (g.discardPile : Multiset Card), ?_⟩
      simp only [allCards, handOf, if_false, Bool.false_eq_true]
      abel
  rw [hinv] at hle
  have hmap := Multiset.map_le_map (f := fun c => c.id) hle
  rw [Multiset.map_coe, Multiset.map_coe] at hmap
  have hfresh : ((freshDeck.map (fun c => c.id) : List String) : Multiset String).Nodup :=
    Multiset.coe_nodup.mpr freshDeck_ids_nodup
  exact Multiset.coe_nodup.mp (Multiset.nodup_of_le hmap hfresh)

/-- The deck is untouched by playCard. -/
theorem playCard_deck (g : GameState) (card : Card) (b : Bool) :
    (playCard g card b).deck = g.deck := by
  cases b <;> simp only [playCard] <;> split_ifs <;> rfl

/-- playCard always appends the played card to the discard pile. -/
theorem playCard_discardPile (g : GameState) (card : Card) (b : Bool) :
    (playCard g card b).discardPile = g.discardPile ++ [card] := by
  cases b <;> simp only [playCard] <;> split_ifs <;> rfl

/-- playCard replaces the acting hand by the identifier filter. -/
theorem playCard_hand_actor (g : GameState) (card : Card) (b : Bool) :
    handOf (playCard g card b) b =
      (handOf g b).filter (fun c => c.id != card.id) := by
  cases b with
  | true =>
    by_cases hlen : (g.playerHand.filter (fun c => c.id != card.id)).length = 0
    · have hnil := List.length_eq_zero.mp hlen
      simp [playCard, handOf, hlen, hnil]
    · by_cases h8 : card.rank = Rank.EIGHT <;>
        simp [playCard, handOf, hlen, h8]
  | false =>
    by_cases hlen : (g.aiHand.filter (fun c => c.id != card.id)).length = 0
    · have hnil := List.length_eq_zero.mp hlen
      simp [playCard, handOf, hlen, hnil]
    · by_cases h8 : card.rank = Rank.EIGHT <;>
        simp [playCard, handOf, hlen, h8]

/-- playCard keeps the other hand. -/
theorem playCard_hand_other (g : GameState) (card : Card) (b : Bool) :
    handOf (playCard g card b) (!b) = handOf g (!b) := by
  cases b with
  | true =>
    by_cases hlen : (g.playerHand.filter (fun c => c.id != card.id)).length = 0 <;>
      by_cases h8 : card.rank = Rank.EIGHT <;>
        simp [playCard, handOf, hlen, h8]
  | false =>
    by_cases hlen : (g.aiHand.filter (fun c => c.id != card.id)).length = 0 <;>
      by_cases h8 : card.rank = Rank.EIGHT <;>
        simp [playCard, handOf, hlen, h8]

/-- playCard preserves the multiset of cards in play when the played card is
a member of the acting hand with pairwise distinct identifiers there. -/
theorem allCards_playCard (g : GameState) (card : Card) (b : Bool)
    (hmem : card ∈ handOf g b)
    (hnd : ((handOf g b).map (fun c => c.id)).Nodup) :
    allCards (playCard g card b) = allCards g := by
  have hperm := mem_perm_cons_filter (handOf g b) card hnd hmem
  have hM : ((handOf g b : List Card) : Multiset Card) =
      {card} + (((handOf g b).filter (fun c => c.id != card.id) : List Card) :
        Multiset Card) := by
    rw [Multiset.singleton_add, Multiset.cons_coe]
    exact Multiset.coe_eq_coe.mpr hperm
  have hdeck := playCard_deck g card b
  have hdisc := playCard_discardPile g card b
  have hactor := playCard_hand_actor g card b
  have hother := playCard_hand_other g card b
  cases b with
  | true =>
    simp only [handOf, if_true] at hM hactor
    simp only [handOf, Bool.not_true, if_false, Bool.false_eq_true] at hother
    simp only [allCards, hdeck, hdisc, hactor, hother, coe_append,
      Multiset.coe_singleton]
    rw [hM]
    abel
  | false =>
    simp only [handOf, if_false, Bool.false_eq_true] at hM hactor
    simp only [handOf, Bool.not_false, if_true] at hother
    simp only [allCards, hdeck, hdisc, hactor, hother, coe_append,
      Multiset.coe_singleton]
    rw [hM]
    abel

/-- drawCard preserves the multiset of cards in play. -/
theorem allCards_drawCard (g : GameState) (b : Bool) :
    allCards (drawCard g b) = allCards g := by
  cases hlast : g.deck.getLast? with
  | none => cases b <;> simp [drawCard, hlast, allCards]
  | some c =>
    have hdeck : g.deck.dropLast ++ [c] = g.deck :=
      List.dropLast_append_getLast? c (by rw [hlast]; rfl)
    have hM : (g.deck : Multiset Card) =
        (g.deck.dropLast : Multiset Card) + {c} := by
      conv_lhs => rw [← hdeck]
      rw [coe_append, Multiset.coe_singleton]
    cases b <;>
      simp only [drawCard, hlast, allCards] <;>
      cases hcp : checkPlayable g c <;>
        simp only [hcp, if_true, if_false, Bool.false_eq_true] <;>
        rw [hM] <;>
        simp only [coe_append, Multiset.coe_singleton] <;>
        abel

/-- initGame accounts for every card of the shuffled deck it was given. -/
theorem allCards_initGame (d : List Card) (diff : Difficulty) (g : GameState)
    (hinit : initGame d diff = some g) :
    allCards g = (d : Multiset Card) := by
  simp only [initGame] at hinit
  cases htf : takeFirstNonEight ((d.drop 8).drop 8) with
  | none =>
    rw [htf] at hinit
    simp at hinit
  | some p =>
    obtain ⟨c, deck⟩ := p
    rw [htf] at hinit
    simp only [Option.some.injEq] at hinit
    subst hinit
    have hM : (((d.drop 8).drop 8 : List Card) : Multiset Card) =
        {c} + (deck : Multiset Card) := by
      rw [Multiset.singleton_add, Multiset.cons_coe]
      exact Multiset.coe_eq_coe.mpr (takeFirstNonEight_perm _ c deck htf)
    have hsplit : d.take 8 ++ ((d.drop 8).take 8 ++ (d.drop 8).drop 8) = d := by
      rw [List.take_append_drop, List.take_append_drop]
    simp only [allCards]
    calc (deck : Multiset Card) + (d.take 8 : Multiset Card) +
          ((d.drop 8).take 8 : Multiset Card) + ([c] : Multiset Card)
        = (d.take 8 : Multiset Card) + ((d.drop 8).take 8 : Multiset Card) +
            ({c} + (deck : Multiset Card)) := by
          rw [Multiset.coe_singleton]; abel
      _ = (d.take 8 : Multiset Card) + ((d.drop 8).take 8 : Multiset Card) +
            (((d.drop 8).drop 8 : List Card) : Multiset Card) := by rw [hM]
      _ = (d : Multiset Card) := by
          conv_rhs => rw [← hsplit]
          rw [coe_append, coe_append]
          abel

/-- The conservation invariant holds at every freshly started game. -/
theorem cardsInv_init (ps : ProgState) (h : InitState ps) : CardsInv ps := by
  obtain ⟨d, diff, g, hperm, hinit, rfl⟩ := h
  show allCards g = (freshDeck : Multiset Card)
  rw [allCards_initGame d diff g hinit]
  exact Multiset.coe_eq_coe.mpr hperm

/-- The conservation invariant is preserved by every transition. -/
theorem cardsInv_step (a b : ProgState) (hs : Step a b) (ha : CardsInv a) :
    CardsInv b := by
  cases hs with
  | playerPlay card hst htn hmem hpl =>
    show allCards (playCard a.game card true) = _
    rw [allCards_playCard a.game card true (by simpa [handOf] using hmem)
      (hand_ids_nodup a.game ha true)]
    exact ha
  | aiPlay card hst htn hpd hmem hpl =>
    show allCards (playCard a.game card false) = _
    rw [allCards_playCard a.game card false (by simpa [handOf] using hmem)
      (hand_ids_nodup a.game ha false)]
    exact ha
  | playerDraw hst htn =>
    show allCards (drawCard a.game true) = _
    rw [allCards_drawCard]
    exact ha
  | aiDraw hst htn hpd hnone =>
    show allCards (drawCard a.game false) = _
    rw [allCards_drawCard]
    exact ha
  | wildSelect suit hst =>
    simpa only [CardsInv, allCards, selectWildSuit] using ha
  | aiWildApply suit hpd =>
    simpa only [CardsInv, allCards] using ha
  | surrenderStep hst =>
    simpa only [CardsInv, allCards, surrender] using ha

/-- C1: in every state reachable from a freshly started game through the
core operations, the deck, the two hands and the discard pile together hold
exactly 52 cards. -/
theorem total_card_count (ps : ProgState) (h : Reachable ps) :
    ps.game.deck.length + ps.game.playerHand.length + ps.game.aiHand.length +
      ps.game.discardPile.length = 52 := by
  have hinv : CardsInv ps :=
    reachable_invariant CardsInv cardsInv_init cardsInv_step ps h
  have hcard := congrArg Multiset.card hinv
  simp only [allCards, Multiset.card_add, Multiset.coe_card] at hcard
  have hlen : freshDeck.length = 52 := by decide
  omega

/-- Witness for C1: the freshly dealt game on the identity shuffle is
reachable and its four zones hold 52 cards. -/
theorem total_card_count_witness :
    Reachable ⟨demoInit, none⟩ ∧
    demoInit.deck.length + demoInit.playerHand.length + demoInit.aiHand.length +
      demoInit.discardPile.length = 52 := by
  have hreach : Reachable ⟨demoInit, none⟩ :=
    ⟨⟨demoInit, none⟩,
      ⟨freshDeck, Difficulty.MEDIUM, demoInit, List.Perm.refl _, by rfl, rfl⟩,
      Relation.ReflTransGen.refl⟩
  exact ⟨hreach, total_card_count ⟨demoInit, none⟩ hreach⟩

/-- The wild-suit invariant holds at every freshly started game. -/
theorem wildInv_init (ps : ProgState) (h : InitState ps) : WildInv ps := by
  obtain ⟨d, diff, g, hperm, hinit, rfl⟩ := h
  intro _
  left
  simp only [initGame] at hinit
  cases htf : takeFirstNonEight ((d.drop 8).drop 8) with
  | none =>
    rw [htf] at hinit
    simp at hinit
  | some p =>
    obtain ⟨c, deck⟩ := p
    rw [htf] at hinit
    simp only [Option.some.injEq] at hinit
    subst hinit
    simp

/-- The wild-suit invariant is preserved by every transition. -/
theorem wildInv_step (a b : ProgState) (hs : Step a b) (ha : WildInv a) :
    WildInv b := by
  cases hs with
  | playerPlay card hst htn hmem hpl =>
    intro _
    rcases ha (by simp [hst]) with hsuit | hpend
    · by_cases hlen : (a.game.playerHand.filter (fun c => c.id != card.id)).length = 0
      · left; simpa [playCard, hlen] using hsuit
      · by_cases h8 : card.rank = Rank.EIGHT
        · left; simpa [playCard, hlen, h8] using hsuit
        · left; simp [playCard, hlen, h8]
    · right; exact hpend
  | aiPlay card hst htn hpd hmem hpl =>
    intro _
    have hsuit : a.game.activeSuit ≠ none := by
      rcases ha (by simp [hst]) with h | h
      · exact h
      · exact absurd hpd h
    by_cases hlen : (a.game.aiHand.filter (fun c => c.id != card.id)).length = 0
    · left; simpa [playCard, hlen] using hsuit
    · by_cases h8 : card.rank = Rank.EIGHT
      · right; simp [aiPendingSuit, hlen, h8]
      · left; simp [playCard, hlen, h8]
  | playerDraw hst htn =>
    intro _
    have hprev := ha (by simp [hst])
    cases hlast : a.game.deck.getLast? with
    | none => simpa [drawCard, hlast] using hprev
    | some c =>
      cases hcp : checkPlayable a.game c <;>
        simpa [drawCard, hlast, hcp] using hprev
  | aiDraw hst htn hpd hnone =>
    intro _
    have hprev := ha (by simp [hst])
    cases hlast : a.game.deck.getLast? with
    | none => simpa [drawCard, hlast] using hprev
    | some c =>
      cases hcp : checkPlayable a.game c <;>
        simpa [drawCard, hlast, hcp] using hprev
  | wildSelect suit hst =>
    intro _
    left
    simp [selectWildSuit]
  | aiWildApply suit hpd =>
    intro _
    left
    simp
  | surrenderStep hst =>
    intro _
    have hprev := ha (by simp [hst])
    simpa [surrender] using hprev

/-- C9 amended: in every reachable state after the game has started the
active suit is a valid suit, except while the deferred wild-suit choice of
the computer is pending, where it is null. -/
theorem activeSuit_valid_after_start (ps : ProgState) (h : Reachable ps)
    (hs : ps.game.status ≠ GameStatus.START) :
    ps.game.activeSuit ≠ none ∨ ps.pending ≠ none :=
  reachable_invariant WildInv wildInv_init wildInv_step ps h hs

/-- Witness for the amended C9 at the freshly dealt game, where the active
suit is the suit of the first discard. -/
theorem activeSuit_valid_after_start_witness :
    demoInit.activeSuit ≠ none ∨ (none : Option Suit) ≠ none := by
  have hreach : Reachable ⟨demoInit, none⟩ :=
    ⟨⟨demoInit, none⟩,
      ⟨freshDeck, Difficulty.MEDIUM, demoInit, List.Perm.refl _, by rfl, rfl⟩,
      Relation.ReflTransGen.refl⟩
  exact activeSuit_valid_after_start ⟨demoInit, none⟩ hreach (by decide)

theorem cexDeck_perm : cexDeck.Perm freshDeck := by decide

/-- C9 counterexample: a reachable state whose phase is PLAYING, hence past
START, and whose active suit is null, between the eight played by the
computer and its deferred suit selection.  The trace is an execution of the
program: the eight of clubs is the only playable card of the computer at
the intermediate state, so the selection of every difficulty tier is that
card; in particular the MEDIUM policy of this game, with no playable
non-eight to prefer, falls back to the first playable card and picks the
eight, as the mediumChoice conjunct certifies. -/
theorem activeSuit_null_counterexample :
    cexG1.aiHand.filter (checkPlayable cexG1) = [mkCard Suit.CLUBS Rank.EIGHT] ∧
    cexG1.difficulty = Difficulty.MEDIUM ∧
    mediumChoice cexG1 = some (mkCard Suit.CLUBS Rank.EIGHT) ∧
    Reachable ⟨cexG2, cexPending⟩ ∧
    cexG2.status = GameStatus.PLAYING ∧
    cexG2.status ≠ GameStatus.START ∧
    cexG2.activeSuit = none := by
  have hinit : InitState ⟨cexG0, none⟩ :=
    ⟨cexDeck, Difficulty.MEDIUM, cexG0, cexDeck_perm, by rfl, rfl⟩
  have h1 : Step ⟨cexG0, none⟩ ⟨cexG1, none⟩ :=
    Step.playerPlay ⟨cexG0, none⟩ (mkCard Suit.HEARTS Rank.FOUR)
      (by decide) (by decide) (by decide) (by decide)
  have h2 : Step ⟨cexG1, none⟩ ⟨cexG2, cexPending⟩ :=
    Step.aiPlay ⟨cexG1, none⟩ (mkCard Suit.CLUBS Rank.EIGHT)
      (by decide) (by decide) (by rfl) (by decide) (by decide)
  refine ⟨by decide, by decide, by decide,
    ⟨⟨cexG0, none⟩, hinit, ?_⟩, by decide, by decide, by decide⟩
  exact Relation.ReflTransGen.head h1
    (Relation.ReflTransGen.head h2 Relation.ReflTransGen.refl)

end CrazyEights
